import Mathlib

/-!
Shallow embedding of the point-to-line assignment and continuous numbering
core of `app.py` (the GeoJSON visualizer).

Modelling conventions:

* Planar (projected, EPSG:3857-class) coordinates are exact rationals `ℚ`;
  the geographic-to-planar projection (`to_crs(epsg=3857)`, an external
  `pyproj` transform) is an abstract parameter `proj`, since no claim
  depends on its numeric values.
* `shapely`'s point-to-polyline distance (`df.geometry.distance(line_proj)`)
  is the Euclidean distance `sqrt (polyDistSq L p)`; to stay in exact
  rational arithmetic the filter comparison `dist_to <= threshold` is
  embedded as the equivalent `0 ≤ threshold ∧ polyDistSq L p ≤ threshold ^ 2`
  (for a nonnegative distance, `sqrt d ≤ t` iff `0 ≤ t ∧ d ≤ t ^ 2`).
* `shapely`'s `line_proj.project(p)` (arc-length position of the orthogonal
  projection, clamped to the line's extent) is irrational in general, so it
  is an abstract parameter `dist_on_of`; only its ordering is ever used by
  the numbering engine (as the sort key `dist_on`).
* `pandas` frames become lists of records; `sort_values("dist_on")` becomes
  a comparison sort by `dist_on` (`List.insertionSort`; the tie order of
  `sort_values` is implementation detail, and no claim depends on it);
  `merge(..., on="orig_index")` with the unique key `orig_index` becomes a
  `find?` lookup; Python exceptions and `st.stop` become `Except`.
-/

/-- A point of the shared planar (metric) coordinate system. -/
structure Point2 where
  x : ℚ
  y : ℚ
deriving DecidableEq, Repr

/-- A projected polyline: the list of its vertices. -/
abbrev Polyline := List Point2

/-- An input GeoJSON feature as far as the core cares: either a point with
geographic longitude/latitude, or some non-point geometry. -/
inductive InGeom where
  | point (lon lat : ℚ)
  | nonPoint
deriving DecidableEq, Repr

/-- The `geom_type == "Point"` test of `app.py` line 65. -/
def InGeom.isPoint : InGeom → Bool
  | .point _ _ => true
  | .nonPoint => false

/-- A row of `gdf` after `reset_index` (app.py lines 69-71): stable original
index plus the original geographic coordinates. -/
structure IngPoint where
  origIndex : ℕ
  lon : ℚ
  lat : ℚ
deriving DecidableEq, Repr

/-- The single error kind of the core: invalid input geometry (a non-point
feature in the point collection, a drawn line with fewer than two vertices,
or a selection index outside the drawn set; in `app.py` all of these halt
processing via `st.stop` or an exception caught at line 254). -/
inductive GeoError where
  | invalidGeometry
deriving DecidableEq, Repr

/-- Ingestion (app.py lines 64-71): reject the input unless every feature is
a point geometry; otherwise enumerate the points, `orig_index` being the
position in the input order. -/
def readPoints (feats : List InGeom) : Except GeoError (List IngPoint) :=
  if feats.all InGeom.isPoint then
    .ok (feats.enum.filterMap fun ig =>
      match ig.2 with
      | .point lo la => some ⟨ig.1, lo, la⟩
      | .nonPoint => none)
  else .error .invalidGeometry

/-- `gdf_proj` (app.py lines 77-81): the points reprojected to the metric
plane, keyed by `orig_index`.  `proj` abstracts the EPSG:4326 → EPSG:3857
transform. -/
def projPoints (proj : ℚ × ℚ → Point2) (gdf : List IngPoint) : List (ℕ × Point2) :=
  gdf.map fun p => (p.origIndex, proj (p.lon, p.lat))

/-- Squared Euclidean distance between two planar points. -/
def ptDistSq (p q : Point2) : ℚ :=
  (p.x - q.x) ^ 2 + (p.y - q.y) ^ 2

/-- Squared distance from point `p` to the segment with endpoints `a`, `b`:
the orthogonal-projection parameter is clamped to `[0, 1]`. -/
def segDistSq (a b p : Point2) : ℚ :=
  let dx := b.x - a.x
  let dy := b.y - a.y
  let dd := dx * dx + dy * dy
  if dd = 0 then ptDistSq p a
  else
    let t := ((p.x - a.x) * dx + (p.y - a.y) * dy) / dd
    let tc := max 0 (min 1 t)
    ptDistSq p ⟨a.x + tc * dx, a.y + tc * dy⟩

/-- Squared distance from a point to a polyline: the minimum over the
polyline's segments (the square of `shapely`'s `distance`).  The
single-vertex base case is the distance to that vertex; since the last
vertex lies on the last segment, that term never beats the segment term and
the result is the minimum over the segments.  (A polyline with fewer than
two vertices is rejected by the engine before this function is consulted.) -/
def polyDistSq : Polyline → Point2 → ℚ
  | [], _ => 0
  | [a], p => ptDistSq p a
  | a :: b :: rest, p => min (segDistSq a b p) (polyDistSq (b :: rest) p)

/-- The distance-threshold test of app.py line 196, `dist_to <= threshold`,
expressed on the squared distance: `sqrt dSq ≤ threshold` iff
`0 ≤ threshold ∧ dSq ≤ threshold ^ 2`. -/
def withinThreshold (threshold dSq : ℚ) : Bool :=
  decide (0 ≤ threshold) && decide (dSq ≤ threshold ^ 2)

/-- A row of the per-line working frame `df` (app.py lines 192-194):
`orig_index`, the along-line position `dist_on` and the squared
perpendicular distance standing for `dist_to`. -/
structure DfRow where
  origIndex : ℕ
  dist_on : ℚ
  dist_toSq : ℚ
deriving DecidableEq, Repr

/-- Build the per-line frame `df` (app.py lines 192-194): one row per
projected point, with `dist_on = line_proj.project(p)` (abstracted by
`dist_on_of`) and the squared form of `dist_to = p.distance(line_proj)`. -/
def mkDf (dist_on_of : Polyline → Point2 → ℚ) (lineProj : Polyline)
    (gdfProj : List (ℕ × Point2)) : List DfRow :=
  gdfProj.map fun r => ⟨r.1, dist_on_of lineProj r.2, polyDistSq lineProj r.2⟩

/-- The filter `sel = df[df["dist_to"] <= threshold]` (app.py line 196). -/
def selRows (threshold : ℚ) (df : List DfRow) : List DfRow :=
  df.filter fun r => withinThreshold threshold r.dist_toSq

/-- The sort `sel.sort_values("dist_on")` (app.py line 200). -/
def sortRows (rows : List DfRow) : List DfRow :=
  rows.insertionSort fun a b => a.dist_on ≤ b.dist_on

/-- Order-number assignment (app.py lines 203-205): the `i`-th row of the
sorted frame, counting from zero, receives order number `c + i`, with `c`
the current value of `global_counter`. -/
def numberedRows (c : ℕ) (rows : List DfRow) : List (ℕ × DfRow) :=
  rows.enum.map fun ir => (c + ir.1, ir.2)

/-- An entry of the Output Point Set, `sel[["order", "lon", "lat"]]`
(app.py line 209). -/
structure OutRow where
  order : ℕ
  lon : ℚ
  lat : ℚ
deriving DecidableEq, Repr

/-- The merge `sel.merge(gdf[["orig_index", "lon", "lat"]], on="orig_index")`
followed by the column selection `sel[["order", "lon", "lat"]]`
(app.py lines 208-209): each numbered row is joined with the unique `gdf`
row of equal `orig_index` to recover the original geographic coordinates;
rows without a match are dropped, as by an inner join. -/
def mergeRows (gdf : List IngPoint) (numbered : List (ℕ × DfRow)) : List OutRow :=
  numbered.filterMap fun nr =>
    (gdf.find? fun g => g.origIndex == nr.2.origIndex).map fun g =>
      ⟨nr.1, g.lon, g.lat⟩

/-- The state threaded through the numbering loop: `global_counter`
(app.py line 174) and the accumulated `all_results` (line 175). -/
structure EngState where
  counter : ℕ
  results : List OutRow
deriving DecidableEq, Repr

/-- One iteration of the numbering loop (app.py lines 180-209) for the
1-based line identity `idx`: fetch the drawn feature, reject it when it has
fewer than two vertices (as `shapely.shape` would), project it, build `df`,
filter by the threshold, skip the line when nothing qualifies, otherwise
sort, number, merge and append. -/
def processLine (proj : ℚ × ℚ → Point2) (dist_on_of : Polyline → Point2 → ℚ)
    (gdf : List IngPoint) (gdfProj : List (ℕ × Point2)) (threshold : ℚ)
    (features : List (List (ℚ × ℚ))) (idx : ℕ) (st : EngState) :
    Except GeoError EngState :=
  match features.get? (idx - 1) with
  | none => .error .invalidGeometry
  | some lineGeo =>
    if lineGeo.length < 2 then .error .invalidGeometry
    else
      let lineProj : Polyline := lineGeo.map proj
      let sel := selRows threshold (mkDf dist_on_of lineProj gdfProj)
      if sel.isEmpty then .ok st
      else
        let merged := mergeRows gdf (numberedRows st.counter (sortRows sel))
        .ok ⟨st.counter + sel.length, st.results ++ merged⟩

/-- The numbering loop `for idx in seq` (app.py lines 180-209), threading
the engine state through the Selection Sequence; any per-line failure
aborts the whole run (the exception handler at line 254). -/
def runLines (proj : ℚ × ℚ → Point2) (dist_on_of : Polyline → Point2 → ℚ)
    (gdf : List IngPoint) (gdfProj : List (ℕ × Point2)) (threshold : ℚ)
    (features : List (List (ℚ × ℚ))) (st : EngState) :
    List ℕ → Except GeoError EngState
  | [] => .ok st
  | idx :: rest =>
    match processLine proj dist_on_of gdf gdfProj threshold features idx st with
    | .error e => .error e
    | .ok st1 => runLines proj dist_on_of gdf gdfProj threshold features st1 rest

/-- The Selection Sequence construction (app.py lines 148-152): the 1-based
identities from `start` to `stop`, forward or backward. -/
def mkSeq (start stop : ℕ) : List ℕ :=
  if start ≤ stop then (List.range (stop + 1 - start)).map (start + ·)
  else (List.range (start + 1 - stop)).map (start - ·)

/-- The whole numbering computation: ingest the point collection, project
it once, run the numbering loop over the Selection Sequence from counter 1,
and return `df_out`, the concatenated Output Point Set (app.py lines 64-81
and 174-229). -/
def runNumbering (proj : ℚ × ℚ → Point2) (dist_on_of : Polyline → Point2 → ℚ)
    (feats : List InGeom) (features : List (List (ℚ × ℚ))) (threshold : ℚ)
    (seqSel : List ℕ) : Except GeoError (List OutRow) :=
  match readPoints feats with
  | .error e => .error e
  | .ok gdf =>
    match runLines proj dist_on_of gdf (projPoints proj gdf) threshold features
        ⟨1, []⟩ seqSel with
    | .error e => .error e
    | .ok st => .ok st.results

/-- The exported geometries (app.py lines 233-237): one WGS84 point feature
per output row, built directly from the output's `lon`/`lat` columns. -/
def exportGeoms (out : List OutRow) : List InGeom :=
  out.map fun e => .point e.lon e.lat

deriving instance DecidableEq for Except

/-- Identity-like projection used to instantiate `proj` on concrete runs. -/
def projId : ℚ × ℚ → Point2 := fun q => ⟨q.1, q.2⟩

/-- Concrete along-line position for instantiating `dist_on_of` on concrete
runs: the clamped x-coordinate, which is the exact arc-length position for a
left-to-right horizontal segment starting at `x = 0`. -/
def distOnX : Polyline → Point2 → ℚ := fun _ p => p.x

example : runNumbering projId distOnX
    [.point 0 0, .point 2 0, .point 1 0] [[(-1, -1), (3, -1)]] (3/2) [1] =
    .ok [⟨1, 0, 0⟩, ⟨2, 1, 0⟩, ⟨3, 2, 0⟩] := by
  norm_num [runNumbering, readPoints, projPoints, processLine, runLines, mkDf,
    selRows, sortRows, numberedRows, mergeRows, polyDistSq, segDistSq, ptDistSq,
    withinThreshold, projId, distOnX, InGeom.isPoint, List.insertionSort,
    List.orderedInsert, List.enum, List.enumFrom, List.filter, List.filterMap,
    List.find?, BEq.beq, Nat.beq]

/-! Helper lemmas about the engine's building blocks. -/

theorem numberedRows_length (c : ℕ) (rows : List DfRow) :
    (numberedRows c rows).length = rows.length := by
  simp [numberedRows]

theorem numberedRows_map_fst (c : ℕ) (rows : List DfRow) :
    (numberedRows c rows).map Prod.fst = List.range' c rows.length := by
  rw [List.range'_eq_map_range, ← List.enum_map_fst rows, numberedRows,
    List.map_map, List.map_map]
  rfl

theorem numberedRows_map_snd (c : ℕ) (rows : List DfRow) :
    (numberedRows c rows).map Prod.snd = rows := by
  conv_rhs => rw [← List.enum_map_snd rows]
  rw [numberedRows, List.map_map]
  rfl

theorem mem_snd_of_mem_numberedRows {c : ℕ} {rows : List DfRow}
    {nr : ℕ × DfRow} (h : nr ∈ numberedRows c rows) : nr.2 ∈ rows := by
  have := List.mem_map_of_mem Prod.snd h
  rwa [numberedRows_map_snd] at this

theorem mem_of_mem_selRows {t : ℚ} {df : List DfRow} {r : DfRow}
    (h : r ∈ selRows t df) : r ∈ df :=
  List.filter_subset' df h

theorem mem_sortRows {rows : List DfRow} {r : DfRow} :
    r ∈ sortRows rows ↔ r ∈ rows := by
  simp [sortRows]

theorem sortRows_length (rows : List DfRow) :
    (sortRows rows).length = rows.length := by
  simp [sortRows]

theorem origIndex_mem_of_mem_mkDf {d : Polyline → Point2 → ℚ} {L : Polyline}
    {gdfProj : List (ℕ × Point2)} {r : DfRow} (h : r ∈ mkDf d L gdfProj) :
    ∃ q ∈ gdfProj, r.origIndex = q.1 := by
  obtain ⟨q, hq, hqr⟩ := List.mem_map.mp h
  exact ⟨q, hq, by rw [← hqr]⟩

theorem mergeRows_map_order (gdf : List IngPoint) :
    ∀ nb : List (ℕ × DfRow),
      (∀ nr ∈ nb, ∃ g ∈ gdf, g.origIndex = nr.2.origIndex) →
      (mergeRows gdf nb).map OutRow.order = nb.map Prod.fst
  | [], _ => rfl
  | a :: l, h => by
    obtain ⟨g, hg, hgi⟩ := h a (List.mem_cons_self a l)
    have hsome : (gdf.find? fun x => x.origIndex == a.2.origIndex).isSome := by
      rw [List.find?_isSome]
      exact ⟨g, hg, by simp [hgi]⟩
    obtain ⟨g1, hfind⟩ := Option.isSome_iff_exists.mp hsome
    have htl := mergeRows_map_order gdf l fun nr hnr => h nr (List.mem_cons_of_mem a hnr)
    simp only [mergeRows, List.filterMap_cons, hfind, Option.map_some'] at *
    simpa using htl

theorem processLine_found {gdf : List IngPoint} {gdfProj : List (ℕ × Point2)}
    {d : Polyline → Point2 → ℚ} {L : Polyline} {t : ℚ} {c : ℕ}
    (hcov : ∀ q ∈ gdfProj, ∃ g ∈ gdf, g.origIndex = q.1) :
    ∀ nr ∈ numberedRows c (sortRows (selRows t (mkDf d L gdfProj))),
      ∃ g ∈ gdf, g.origIndex = nr.2.origIndex := by
  intro nr hnr
  have h1 : nr.2 ∈ sortRows (selRows t (mkDf d L gdfProj)) :=
    mem_snd_of_mem_numberedRows hnr
  have h2 : nr.2 ∈ mkDf d L gdfProj := mem_of_mem_selRows (mem_sortRows.mp h1)
  obtain ⟨q, hq, hqi⟩ := origIndex_mem_of_mem_mkDf h2
  obtain ⟨g, hg, hgi⟩ := hcov q hq
  exact ⟨g, hg, by rw [hgi, hqi]⟩

theorem processLine_ok {proj : ℚ × ℚ → Point2} {d : Polyline → Point2 → ℚ}
    {gdf : List IngPoint} {gdfProj : List (ℕ × Point2)} {t : ℚ}
    {features : List (List (ℚ × ℚ))} {idx : ℕ} {st st1 : EngState}
    (hcov : ∀ q ∈ gdfProj, ∃ g ∈ gdf, g.origIndex = q.1)
    (h : processLine proj d gdf gdfProj t features idx st = .ok st1) :
    st.counter ≤ st1.counter ∧
      st1.results.map OutRow.order
        = st.results.map OutRow.order
          ++ List.range' st.counter (st1.counter - st.counter) := by
  cases hget : features.get? (idx - 1) with
  | none => simp only [processLine, hget] at h; simp at h
  | some lineGeo =>
    simp only [processLine, hget] at h
    by_cases hlen : lineGeo.length < 2
    · rw [if_pos hlen] at h
      simp at h
    · rw [if_neg hlen] at h
      by_cases hempty : (selRows t (mkDf d (lineGeo.map proj) gdfProj)).isEmpty = true
      · rw [if_pos hempty] at h
        have hst : st = st1 := Except.ok.inj h
        subst hst
        simp
      · rw [if_neg hempty] at h
        have hst := (Except.ok.inj h).symm
        subst hst
        refine ⟨Nat.le_add_right _ _, ?_⟩
        rw [List.map_append,
          mergeRows_map_order gdf _ (processLine_found hcov),
          numberedRows_map_fst, sortRows_length]
        simp

theorem runLines_ok {proj : ℚ × ℚ → Point2} {d : Polyline → Point2 → ℚ}
    {gdf : List IngPoint} {gdfProj : List (ℕ × Point2)} {t : ℚ}
    {features : List (List (ℚ × ℚ))}
    (hcov : ∀ q ∈ gdfProj, ∃ g ∈ gdf, g.origIndex = q.1) :
    ∀ (s : List ℕ) (st st1 : EngState),
      runLines proj d gdf gdfProj t features st s = .ok st1 →
      st.counter ≤ st1.counter ∧
        st1.results.map OutRow.order
          = st.results.map OutRow.order
            ++ List.range' st.counter (st1.counter - st.counter)
  | [], st, st1, h => by
    have hst : st = st1 := Except.ok.inj h
    subst hst
    simp
  | idx :: rest, st, st1, h => by
    simp only [runLines] at h
    cases hp : processLine proj d gdf gdfProj t features idx st with
    | error e => rw [hp] at h; simp at h
    | ok stm =>
      rw [hp] at h
      obtain ⟨hle1, hord1⟩ := processLine_ok hcov hp
      obtain ⟨hle2, hord2⟩ := runLines_ok hcov rest stm st1 h
      refine ⟨le_trans hle1 hle2, ?_⟩
      rw [hord2, hord1, List.append_assoc]
      congr 1
      have hm : stm.counter = st.counter + (stm.counter - st.counter) :=
        (Nat.add_sub_cancel' hle1).symm
      have hn : (st1.counter - stm.counter) + (stm.counter - st.counter)
          = st1.counter - st.counter := by omega
      rw [← hn, ← List.range'_append_1, ← hm]

theorem covered_projPoints (proj : ℚ × ℚ → Point2) (gdf : List IngPoint) :
    ∀ q ∈ projPoints proj gdf, ∃ g ∈ gdf, g.origIndex = q.1 := by
  intro q hq
  obtain ⟨p, hp, hpq⟩ := List.mem_map.mp hq
  exact ⟨p, hp, by rw [← hpq]⟩

theorem runNumbering_ok {proj : ℚ × ℚ → Point2} {d : Polyline → Point2 → ℚ}
    {feats : List InGeom} {features : List (List (ℚ × ℚ))} {t : ℚ}
    {s : List ℕ} {out : List OutRow}
    (h : runNumbering proj d feats features t s = .ok out) :
    ∃ gdf, readPoints feats = .ok gdf ∧
      ∃ st1, runLines proj d gdf (projPoints proj gdf) t features ⟨1, []⟩ s
          = .ok st1 ∧ out = st1.results := by
  unfold runNumbering at h
  split at h
  next e heq => simp at h
  next gdf heq =>
    split at h
    next e2 heq2 => simp at h
    next st1 heq2 =>
      exact ⟨gdf, heq, st1, heq2, (Except.ok.inj h).symm⟩

theorem mergeRows_provenance {gdf : List IngPoint} {nb : List (ℕ × DfRow)}
    {e : OutRow} (he : e ∈ mergeRows gdf nb) :
    ∃ g ∈ gdf, e.lon = g.lon ∧ e.lat = g.lat := by
  obtain ⟨nr, _, hmap⟩ := List.mem_filterMap.mp he
  cases hfind : gdf.find? fun x => x.origIndex == nr.2.origIndex with
  | none => rw [hfind] at hmap; simp at hmap
  | some g =>
    rw [hfind] at hmap
    simp only [Option.map_some', Option.some.injEq] at hmap
    exact ⟨g, List.mem_of_find?_eq_some hfind, by subst hmap; exact ⟨rfl, rfl⟩⟩

theorem withinThreshold_of_neg {t : ℚ} (ht : t < 0) (dSq : ℚ) :
    withinThreshold t dSq = false := by
  simp [withinThreshold, ht.not_le]

theorem selRows_of_neg {t : ℚ} (ht : t < 0) (df : List DfRow) :
    selRows t df = [] := by
  simp [selRows, withinThreshold_of_neg ht]

theorem processLine_of_neg {proj : ℚ × ℚ → Point2} {d : Polyline → Point2 → ℚ}
    {gdf : List IngPoint} {gdfProj : List (ℕ × Point2)} {t : ℚ}
    {features : List (List (ℚ × ℚ))} {idx : ℕ} {st st1 : EngState}
    (ht : t < 0)
    (h : processLine proj d gdf gdfProj t features idx st = .ok st1) :
    st1 = st := by
  cases hget : features.get? (idx - 1) with
  | none => simp only [processLine, hget] at h; simp at h
  | some lineGeo =>
    simp only [processLine, hget] at h
    by_cases hlen : lineGeo.length < 2
    · rw [if_pos hlen] at h
      simp at h
    · rw [if_neg hlen] at h
      rw [selRows_of_neg ht] at h
      simp only [List.isEmpty_nil, if_true] at h
      exact (Except.ok.inj h).symm

theorem runLines_of_neg {proj : ℚ × ℚ → Point2} {d : Polyline → Point2 → ℚ}
    {gdf : List IngPoint} {gdfProj : List (ℕ × Point2)} {t : ℚ}
    {features : List (List (ℚ × ℚ))} (ht : t < 0) :
    ∀ (s : List ℕ) (st st1 : EngState),
      runLines proj d gdf gdfProj t features st s = .ok st1 → st1 = st
  | [], _, _, h => (Except.ok.inj h).symm
  | idx :: rest, st, st1, h => by
    simp only [runLines] at h
    cases hp : processLine proj d gdf gdfProj t features idx st with
    | error e => rw [hp] at h; simp at h
    | ok stm =>
      rw [hp] at h
      have h1 : stm = st := processLine_of_neg ht hp
      have h2 : st1 = stm := runLines_of_neg ht rest stm st1 h
      rw [h2, h1]

/-! The claims. -/

/-- C1: for every successful run of the numbering engine, the order numbers
of the Output Point Set, read in output order, are exactly the contiguous
range `[1, total_matched_count]` — unique, strictly increasing, starting at
1, with no gaps or repeats — regardless of how many lines contributed zero
qualifying points. -/
theorem orders_form_contiguous_range {proj : ℚ × ℚ → Point2}
    {d : Polyline → Point2 → ℚ} {feats : List InGeom}
    {features : List (List (ℚ × ℚ))} {t : ℚ} {s : List ℕ} {out : List OutRow}
    (h : runNumbering proj d feats features t s = .ok out) :
    out.map OutRow.order = List.range' 1 out.length := by
  obtain ⟨gdf, hrp, st1, hrl, hout⟩ := runNumbering_ok h
  obtain ⟨hle, hord⟩ :=
    runLines_ok (covered_projPoints proj gdf) s ⟨1, []⟩ st1 hrl
  simp only [List.map_nil, List.nil_append] at hord
  subst hout
  have hlen : st1.results.length = st1.counter - 1 := by
    have hl := congrArg List.length hord
    simpa using hl
  rw [hord, hlen]

/-- Witness for C1 at a concrete run: three points qualifying on one line
receive the order numbers 1, 2, 3. -/
theorem orders_form_contiguous_range_witness :
    ([⟨1, 0, 0⟩, ⟨2, 1, 0⟩, ⟨3, 2, 0⟩] : List OutRow).map OutRow.order
      = List.range' 1 ([⟨1, 0, 0⟩, ⟨2, 1, 0⟩, ⟨3, 2, 0⟩] : List OutRow).length :=
  orders_form_contiguous_range
    (show runNumbering projId distOnX
        [.point 0 0, .point 2 0, .point 1 0] [[(-1, -1), (3, -1)]] (3/2) [1]
        = .ok [⟨1, 0, 0⟩, ⟨2, 1, 0⟩, ⟨3, 2, 0⟩] by
      norm_num [runNumbering, readPoints, projPoints, processLine, runLines,
        mkDf, selRows, sortRows, numberedRows, mergeRows, polyDistSq, segDistSq,
        ptDistSq, withinThreshold, projId, distOnX, InGeom.isPoint,
        List.insertionSort, List.orderedInsert, List.enum, List.enumFrom,
        List.filter, List.filterMap, List.find?, BEq.beq, Nat.beq])

/-- C2: the numbering computation is a pure function of its inputs — two
runs on equal inputs (same point collection, same drawn lines, same
threshold, same Selection Sequence, same geometry backends) return equal
Output Point Sets: same entries, same order, same order numbers. -/
theorem numbering_deterministic {proj1 proj2 : ℚ × ℚ → Point2}
    {d1 d2 : Polyline → Point2 → ℚ} {feats1 feats2 : List InGeom}
    {features1 features2 : List (List (ℚ × ℚ))} {t1 t2 : ℚ} {s1 s2 : List ℕ}
    (h : (proj1, d1, feats1, features1, t1, s1)
      = (proj2, d2, feats2, features2, t2, s2)) :
    runNumbering proj1 d1 feats1 features1 t1 s1
      = runNumbering proj2 d2 feats2 features2 t2 s2 := by
  cases h
  rfl

/-- Witness for C2 at a concrete input. -/
theorem numbering_deterministic_witness :
    runNumbering projId distOnX [.point 0 0] [[(-1, 0), (1, 0)]] 1 [1]
      = runNumbering projId distOnX [.point 0 0] [[(-1, 0), (1, 0)]] 1 [1] :=
  numbering_deterministic rfl

/-- C6 counterexample: the claim "for any threshold ≤ 0 the Output Point Set
is empty for every input" is false at threshold = 0: the filter boundary is
inclusive, so a point lying exactly on the selected line (perpendicular
distance 0 ≤ 0) still qualifies and receives an order number. -/
theorem nonpositive_threshold_counterexample :
    ¬ ∀ (t : ℚ), t ≤ 0 →
        ∀ (feats : List InGeom) (features : List (List (ℚ × ℚ)))
          (s : List ℕ) (out : List OutRow),
          runNumbering projId distOnX feats features t s = .ok out →
          out = [] := by
  intro hall
  have hrun : runNumbering projId distOnX [.point 0 0] [[(-1, 0), (1, 0)]] 0 [1]
      = .ok [⟨1, 0, 0⟩] := by
    norm_num [runNumbering, readPoints, projPoints, processLine, runLines,
      mkDf, selRows, sortRows, numberedRows, mergeRows, polyDistSq, segDistSq,
      ptDistSq, withinThreshold, projId, distOnX, InGeom.isPoint,
      List.insertionSort, List.orderedInsert, List.enum, List.enumFrom,
      List.filter, List.filterMap, List.find?, BEq.beq, Nat.beq]
  have hc := hall 0 le_rfl _ _ _ _ hrun
  simp at hc

/-- C6 as amended: a strictly negative threshold is permitted (not an
error) and degenerates to "no points ever qualify": every successful run
returns an empty Output Point Set.  (At threshold = 0 points lying exactly
on a line still qualify, by the inclusive boundary.) -/
theorem negative_threshold_empty {proj : ℚ × ℚ → Point2}
    {d : Polyline → Point2 → ℚ} {feats : List InGeom}
    {features : List (List (ℚ × ℚ))} {t : ℚ} {s : List ℕ} {out : List OutRow}
    (ht : t < 0)
    (h : runNumbering proj d feats features t s = .ok out) :
    out = [] := by
  obtain ⟨gdf, hrp, st1, hrl, hout⟩ := runNumbering_ok h
  rw [hout, runLines_of_neg ht s _ _ hrl]

/-- Witness for C6 as amended: a run with threshold -1 on a point lying on
the line succeeds and returns the empty Output Point Set. -/
theorem negative_threshold_empty_witness :
    (-1 : ℚ) < 0 ∧ ([] : List OutRow) = [] :=
  ⟨by norm_num,
    negative_threshold_empty (by norm_num)
      (show runNumbering projId distOnX [.point 0 0] [[(-1, 0), (1, 0)]]
          (-1) [1] = .ok [] by
        norm_num [runNumbering, readPoints, projPoints, processLine, runLines,
          mkDf, selRows, sortRows, numberedRows, mergeRows, polyDistSq,
          segDistSq, ptDistSq, withinThreshold, projId, distOnX,
          InGeom.isPoint, List.insertionSort, List.orderedInsert, List.enum,
          List.enumFrom, List.filter, List.filterMap, List.find?, BEq.beq,
          Nat.beq])⟩

theorem runLines_append {proj : ℚ × ℚ → Point2} {d : Polyline → Point2 → ℚ}
    {gdf : List IngPoint} {gdfProj : List (ℕ × Point2)} {t : ℚ}
    {features : List (List (ℚ × ℚ))} :
    ∀ (s1 s2 : List ℕ) (st : EngState),
      runLines proj d gdf gdfProj t features st (s1 ++ s2)
        = (runLines proj d gdf gdfProj t features st s1).bind
            (fun st1 => runLines proj d gdf gdfProj t features st1 s2)
  | [], s2, st => rfl
  | idx :: rest, s2, st => by
    simp only [List.cons_append, runLines]
    cases hp : processLine proj d gdf gdfProj t features idx st with
    | error e => rfl
    | ok stm => exact runLines_append rest s2 stm

theorem processLine_skip {proj : ℚ × ℚ → Point2} {d : Polyline → Point2 → ℚ}
    {gdf : List IngPoint} {gdfProj : List (ℕ × Point2)} {t : ℚ}
    {features : List (List (ℚ × ℚ))} {idx : ℕ} {lg : List (ℚ × ℚ)}
    (st : EngState)
    (hget : features.get? (idx - 1) = some lg)
    (hlen : 2 ≤ lg.length)
    (hsel : selRows t (mkDf d (lg.map proj) gdfProj) = []) :
    processLine proj d gdf gdfProj t features idx st = .ok st := by
  simp only [processLine, hget]
  rw [if_neg (Nat.not_lt.mpr hlen), hsel]
  rfl

/-- C4: a line of the Selection Sequence whose filtered set of qualifying
points is empty contributes no entries and leaves the counter untouched:
the run over any sequence containing it equals the run over the sequence
with it removed, so subsequent lines continue numbering exactly as if the
empty line were absent.  (`1 ≤ idx` restricts to the 1-based identities the
app can produce.) -/
theorem empty_line_contributes_nothing {proj : ℚ × ℚ → Point2}
    {d : Polyline → Point2 → ℚ} {gdf : List IngPoint}
    {gdfProj : List (ℕ × Point2)} {t : ℚ} {features : List (List (ℚ × ℚ))}
    {idx : ℕ} {lg : List (ℚ × ℚ)} (s1 s2 : List ℕ) (st : EngState)
    (_hpos : 1 ≤ idx)
    (hget : features.get? (idx - 1) = some lg)
    (hlen : 2 ≤ lg.length)
    (hsel : selRows t (mkDf d (lg.map proj) gdfProj) = []) :
    runLines proj d gdf gdfProj t features st (s1 ++ idx :: s2)
      = runLines proj d gdf gdfProj t features st (s1 ++ s2) := by
  rw [runLines_append, runLines_append]
  congr 1
  funext st1
  show runLines proj d gdf gdfProj t features st1 (idx :: s2) = _
  simp only [runLines, processLine_skip st1 hget hlen hsel]

/-- Witness for C4: a line far away from the single point is skipped and the
run equals the run without it. -/
theorem empty_line_contributes_nothing_witness :
    (1 ≤ 1 ∧
      runLines projId distOnX [⟨0, 0, 0⟩] [(0, ⟨0, 0⟩)] 1
        [[(10, 10), (11, 10)], [(-1, 0), (1, 0)]] ⟨1, []⟩ ([] ++ 1 :: [2])
      = runLines projId distOnX [⟨0, 0, 0⟩] [(0, ⟨0, 0⟩)] 1
        [[(10, 10), (11, 10)], [(-1, 0), (1, 0)]] ⟨1, []⟩ ([] ++ [2])) :=
  ⟨le_refl 1,
    empty_line_contributes_nothing [] [2] ⟨1, []⟩ (le_refl 1) rfl
      (by norm_num)
      (by norm_num [selRows, mkDf, polyDistSq, segDistSq, ptDistSq,
        withinThreshold, projId, distOnX, List.filter])⟩

/-- C3: the threshold filter has an inclusive boundary: a point whose
perpendicular distance to the processed line is exactly the threshold `t`
(squared distance `t ^ 2`) is kept in the line's qualifying set, while a
point at distance `t + eps` for any `eps > 0` (squared distance
`(t + eps) ^ 2`) is excluded. -/
theorem threshold_boundary_inclusive {L : Polyline} {t eps : ℚ}
    {gdfProj : List (ℕ × Point2)} {d : Polyline → Point2 → ℚ}
    {a b : ℕ × Point2}
    (ht : 0 ≤ t) (heps : 0 < eps) (ha : a ∈ gdfProj) (_hb : b ∈ gdfProj)
    (hda : polyDistSq L a.2 = t ^ 2) (hdb : polyDistSq L b.2 = (t + eps) ^ 2) :
    (⟨a.1, d L a.2, polyDistSq L a.2⟩ : DfRow) ∈ selRows t (mkDf d L gdfProj)
    ∧ (⟨b.1, d L b.2, polyDistSq L b.2⟩ : DfRow) ∉ selRows t (mkDf d L gdfProj) := by
  constructor
  · apply List.mem_filter.mpr
    refine ⟨List.mem_map.mpr ⟨a, ha, rfl⟩, ?_⟩
    simp only [withinThreshold, hda, Bool.and_eq_true, decide_eq_true_eq]
    exact ⟨ht, le_refl _⟩
  · intro hmem
    have hq := (List.mem_filter.mp hmem).2
    simp only [withinThreshold, hdb, Bool.and_eq_true, decide_eq_true_eq] at hq
    nlinarith [hq.2]

/-- Witness for C3: with threshold 1, a point at distance exactly 1 from the
line is selected and a point at distance 2 = 1 + 1 is not. -/
theorem threshold_boundary_inclusive_witness :
    (⟨0, distOnX [⟨0, 0⟩, ⟨10, 0⟩] ⟨3, 1⟩,
        polyDistSq [⟨0, 0⟩, ⟨10, 0⟩] ⟨3, 1⟩⟩ : DfRow)
      ∈ selRows 1 (mkDf distOnX [⟨0, 0⟩, ⟨10, 0⟩] [(0, ⟨3, 1⟩), (1, ⟨5, 2⟩)])
    ∧ (⟨1, distOnX [⟨0, 0⟩, ⟨10, 0⟩] ⟨5, 2⟩,
        polyDistSq [⟨0, 0⟩, ⟨10, 0⟩] ⟨5, 2⟩⟩ : DfRow)
      ∉ selRows 1 (mkDf distOnX [⟨0, 0⟩, ⟨10, 0⟩] [(0, ⟨3, 1⟩), (1, ⟨5, 2⟩)]) :=
  threshold_boundary_inclusive (by norm_num) (show (0:ℚ) < 1 by norm_num)
    (List.mem_cons_self _ _)
    (List.mem_cons_of_mem _ (List.mem_cons_self _ _))
    (by norm_num [polyDistSq, segDistSq, ptDistSq])
    (by norm_num [polyDistSq, segDistSq, ptDistSq])

instance : IsTotal DfRow (fun a b => a.dist_on ≤ b.dist_on) :=
  ⟨fun a b => le_total a.dist_on b.dist_on⟩

instance : IsTrans DfRow (fun a b => a.dist_on ≤ b.dist_on) :=
  ⟨fun _ _ _ hab hbc => le_trans hab hbc⟩

theorem sortRows_sorted (rows : List DfRow) :
    List.Sorted (fun a b => a.dist_on ≤ b.dist_on) (sortRows rows) :=
  List.sorted_insertionSort _ rows

theorem numberedRows_get (c : ℕ) (rows : List DfRow) (i : ℕ)
    (hi : i < (numberedRows c rows).length) :
    (numberedRows c rows).get ⟨i, hi⟩
      = (c + i, rows.get ⟨i, by simpa [numberedRows_length] using hi⟩) := by
  simp only [numberedRows, List.get_eq_getElem, List.getElem_map,
    List.getElem_enum]

/-- C5: within one processed line's contribution, the along-line position is
non-decreasing in the order number: among the rows numbered from the current
counter value `c`, whenever one row's order number is at most another's, its
`dist_on` is at most the other's. -/
theorem per_line_position_monotone {t : ℚ} {d : Polyline → Point2 → ℚ}
    {L : Polyline} {gdfProj : List (ℕ × Point2)} {c : ℕ}
    {nb : List (ℕ × DfRow)}
    (hnb : nb = numberedRows c (sortRows (selRows t (mkDf d L gdfProj))))
    (i j : ℕ) (hi : i < nb.length) (hj : j < nb.length)
    (hord : (nb.get ⟨i, hi⟩).1 ≤ (nb.get ⟨j, hj⟩).1) :
    (nb.get ⟨i, hi⟩).2.dist_on ≤ (nb.get ⟨j, hj⟩).2.dist_on := by
  subst hnb
  rw [numberedRows_get _ _ i hi] at hord ⊢
  rw [numberedRows_get _ _ j hj] at hord ⊢
  simp only at hord ⊢
  have hij : i ≤ j := by omega
  rcases Nat.lt_or_ge i j with hlt | hge
  · exact (List.pairwise_iff_get.mp (sortRows_sorted _)) ⟨i, _⟩ ⟨j, _⟩ hlt
  · have : i = j := le_antisymm hij hge
    subst this
    exact le_refl _

/-- Witness for C5 at a concrete line: two points on the line, numbered 1
and 2, have non-decreasing along-line positions. -/
theorem per_line_position_monotone_witness :
    (([(1, ⟨0, 1, 0⟩), (2, ⟨1, 2, 0⟩)] : List (ℕ × DfRow)).get
        ⟨0, by norm_num⟩).2.dist_on
      ≤ (([(1, ⟨0, 1, 0⟩), (2, ⟨1, 2, 0⟩)] : List (ℕ × DfRow)).get
        ⟨1, by norm_num⟩).2.dist_on :=
  per_line_position_monotone
    (show ([(1, ⟨0, 1, 0⟩), (2, ⟨1, 2, 0⟩)] : List (ℕ × DfRow))
        = numberedRows 1 (sortRows (selRows 1
            (mkDf distOnX [⟨0, 0⟩, ⟨10, 0⟩] [(0, ⟨1, 0⟩), (1, ⟨2, 0⟩)]))) by
      norm_num [numberedRows, sortRows, selRows, mkDf, polyDistSq, segDistSq,
        ptDistSq, withinThreshold, distOnX, List.insertionSort,
        List.orderedInsert, List.enum, List.enumFrom, List.filter])
    0 1 (by norm_num) (by norm_num)
    (by norm_num)

theorem readPoints_error_of_nonpoint {feats : List InGeom} {g : InGeom}
    (hg : g ∈ feats) (hnp : g.isPoint = false) :
    readPoints feats = .error .invalidGeometry := by
  have hall : feats.all InGeom.isPoint = false := by
    rw [List.all_eq_false]
    exact ⟨g, hg, by rw [hnp]; exact Bool.false_ne_true⟩
  rw [readPoints, hall]
  rfl

theorem processLine_ok_line_valid {proj : ℚ × ℚ → Point2}
    {d : Polyline → Point2 → ℚ} {gdf : List IngPoint}
    {gdfProj : List (ℕ × Point2)} {t : ℚ} {features : List (List (ℚ × ℚ))}
    {idx : ℕ} {st st1 : EngState} {lg : List (ℚ × ℚ)}
    (h : processLine proj d gdf gdfProj t features idx st = .ok st1)
    (hget : features.get? (idx - 1) = some lg) :
    ¬ lg.length < 2 := by
  intro hlen
  simp only [processLine, hget] at h
  rw [if_pos hlen] at h
  simp at h

theorem runLines_ok_lines_valid {proj : ℚ × ℚ → Point2}
    {d : Polyline → Point2 → ℚ} {gdf : List IngPoint}
    {gdfProj : List (ℕ × Point2)} {t : ℚ} {features : List (List (ℚ × ℚ))} :
    ∀ (s : List ℕ) (st st1 : EngState),
      runLines proj d gdf gdfProj t features st s = .ok st1 →
      ∀ idx ∈ s, ∀ lg, features.get? (idx - 1) = some lg → ¬ lg.length < 2
  | [], _, _, _, idx, hidx, _, _ => absurd hidx (List.not_mem_nil idx)
  | i0 :: rest, st, st1, h, idx, hidx, lg, hget => by
    simp only [runLines] at h
    cases hp : processLine proj d gdf gdfProj t features i0 st with
    | error e => rw [hp] at h; simp at h
    | ok stm =>
      rw [hp] at h
      rcases List.mem_cons.mp hidx with heq | hmem
      · subst heq
        exact processLine_ok_line_valid hp hget
      · exact runLines_ok_lines_valid rest stm st1 h idx hmem lg hget

/-- C7: the run fails with the invalid-geometry error — and hence produces
no Output Point Set — whenever the input point collection contains a
non-point feature, or some selected line (with its app-produced 1-based
identity) has fewer than two vertices. -/
theorem invalid_geometry_halts {proj : ℚ × ℚ → Point2}
    {d : Polyline → Point2 → ℚ} {feats : List InGeom}
    {features : List (List (ℚ × ℚ))} {t : ℚ} {s : List ℕ}
    (hbad : (∃ g ∈ feats, g.isPoint = false)
      ∨ ∃ idx ∈ s, 1 ≤ idx
          ∧ ∃ lg, features.get? (idx - 1) = some lg ∧ lg.length < 2) :
    runNumbering proj d feats features t s = .error .invalidGeometry := by
  rcases hbad with ⟨g, hg, hnp⟩ | ⟨idx, hidx, _, lg, hget, hlen⟩
  · unfold runNumbering
    rw [readPoints_error_of_nonpoint hg hnp]
  · cases hrp : readPoints feats with
    | error e =>
      cases e
      unfold runNumbering
      rw [hrp]
    | ok gdf =>
      unfold runNumbering
      rw [hrp]
      cases hrl : runLines proj d gdf (projPoints proj gdf) t features
          ⟨1, []⟩ s with
      | error e => cases e; simp only [hrl]
      | ok st1 =>
        exact absurd hlen
          (runLines_ok_lines_valid s ⟨1, []⟩ st1 hrl idx hidx lg hget)

/-- Witness for C7: a point collection containing a polygon-like feature is
rejected, and so is a selected one-vertex line. -/
theorem invalid_geometry_halts_witness :
    runNumbering projId distOnX [.point 0 0, .nonPoint] [[(0, 0), (1, 0)]] 1 [1]
      = .error .invalidGeometry
    ∧ runNumbering projId distOnX [.point 0 0] [[(0, 0)]] 1 [1]
      = .error .invalidGeometry :=
  ⟨invalid_geometry_halts
    (Or.inl ⟨.nonPoint, List.mem_cons_of_mem _ (List.mem_cons_self _ _), rfl⟩),
   invalid_geometry_halts
    (Or.inr ⟨1, List.mem_cons_self _ _, le_refl 1, [(0, 0)], rfl, by norm_num⟩)⟩

/-- C8: the engine does not deduplicate points across lines.  Concretely: a
single point within the threshold of both selected lines (its squared
perpendicular distance to each is below the squared threshold) appears once
in each line's contribution, receiving order number 1 from the first
processed line and order number 2 from the second. -/
theorem no_dedup_across_lines :
    withinThreshold 2 (polyDistSq ([((-1:ℚ), (-1:ℚ)), (1, -1)].map projId) ⟨0, 0⟩)
        = true
    ∧ withinThreshold 2 (polyDistSq ([((-1:ℚ), (1:ℚ)), (1, 1)].map projId) ⟨0, 0⟩)
        = true
    ∧ runNumbering projId distOnX [.point 0 0]
        [[(-1, -1), (1, -1)], [(-1, 1), (1, 1)]] 2 [1, 2]
        = .ok [⟨1, 0, 0⟩, ⟨2, 0, 0⟩] := by
  refine ⟨?_, ?_, ?_⟩ <;>
    norm_num [runNumbering, readPoints, projPoints, processLine, runLines,
      mkDf, selRows, sortRows, numberedRows, mergeRows, polyDistSq, segDistSq,
      ptDistSq, withinThreshold, projId, distOnX, InGeom.isPoint,
      List.insertionSort, List.orderedInsert, List.enum, List.enumFrom,
      List.filter, List.filterMap, List.find?, BEq.beq, Nat.beq]

theorem processLine_provenance {proj : ℚ × ℚ → Point2}
    {d : Polyline → Point2 → ℚ} {gdf : List IngPoint}
    {gdfProj : List (ℕ × Point2)} {t : ℚ} {features : List (List (ℚ × ℚ))}
    {idx : ℕ} {st st1 : EngState}
    (h : processLine proj d gdf gdfProj t features idx st = .ok st1) :
    ∀ e ∈ st1.results,
      e ∈ st.results ∨ ∃ g ∈ gdf, e.lon = g.lon ∧ e.lat = g.lat := by
  cases hget : features.get? (idx - 1) with
  | none => simp only [processLine, hget] at h; simp at h
  | some lineGeo =>
    simp only [processLine, hget] at h
    by_cases hlen : lineGeo.length < 2
    · rw [if_pos hlen] at h
      simp at h
    · rw [if_neg hlen] at h
      by_cases hempty :
          (selRows t (mkDf d (lineGeo.map proj) gdfProj)).isEmpty = true
      · rw [if_pos hempty] at h
        have hst : st = st1 := Except.ok.inj h
        subst hst
        exact fun e he => Or.inl he
      · rw [if_neg hempty] at h
        have hst := (Except.ok.inj h).symm
        subst hst
        intro e he
        rcases List.mem_append.mp he with hl | hr
        · exact Or.inl hl
        · exact Or.inr (mergeRows_provenance hr)

theorem runLines_provenance {proj : ℚ × ℚ → Point2}
    {d : Polyline → Point2 → ℚ} {gdf : List IngPoint}
    {gdfProj : List (ℕ × Point2)} {t : ℚ} {features : List (List (ℚ × ℚ))} :
    ∀ (s : List ℕ) (st st1 : EngState),
      runLines proj d gdf gdfProj t features st s = .ok st1 →
      ∀ e ∈ st1.results,
        e ∈ st.results ∨ ∃ g ∈ gdf, e.lon = g.lon ∧ e.lat = g.lat
  | [], st, st1, h => by
    have hst : st = st1 := Except.ok.inj h
    subst hst
    exact fun e he => Or.inl he
  | idx :: rest, st, st1, h => by
    simp only [runLines] at h
    cases hp : processLine proj d gdf gdfProj t features idx st with
    | error e => rw [hp] at h; simp at h
    | ok stm =>
      rw [hp] at h
      intro e he
      rcases runLines_provenance rest stm st1 h e he with hm | hg
      · exact processLine_provenance hp e hm
      · exact Or.inr hg

theorem runNumbering_provenance {proj : ℚ × ℚ → Point2}
    {d : Polyline → Point2 → ℚ} {feats : List InGeom}
    {features : List (List (ℚ × ℚ))} {t : ℚ} {s : List ℕ}
    {out : List OutRow} {gdf : List IngPoint}
    (h : runNumbering proj d feats features t s = .ok out)
    (hrp : readPoints feats = .ok gdf) :
    ∀ e ∈ out, ∃ g ∈ gdf, e.lon = g.lon ∧ e.lat = g.lat := by
  obtain ⟨gdf1, hrp1, st1, hrl, hout⟩ := runNumbering_ok h
  rw [hrp] at hrp1
  have hgdf : gdf = gdf1 := Except.ok.inj hrp1
  subst hgdf
  subst hout
  intro e he
  rcases runLines_provenance s ⟨1, []⟩ st1 hrl e he with hm | hg
  · exact absurd hm (List.not_mem_nil e)
  · exact hg

/-- C9 counterexample: the Output Point Set keeps only (order, lon, lat) —
the stable original index is dropped at export — so when two distinct input
points share the same coordinates, an output entry cannot be traced back to
a unique input point: the entry with order 1 below matches both ingested
points. -/
theorem identity_not_recoverable_counterexample :
    runNumbering projId distOnX [.point 0 0, .point 0 0] [[(-1, 0), (1, 0)]]
        1 [1]
      = .ok [⟨1, 0, 0⟩, ⟨2, 0, 0⟩]
    ∧ readPoints [.point 0 0, .point 0 0] = .ok [⟨0, 0, 0⟩, ⟨1, 0, 0⟩]
    ∧ ¬ ∃! g : IngPoint,
        g ∈ ([⟨0, 0, 0⟩, ⟨1, 0, 0⟩] : List IngPoint)
          ∧ g.lon = (⟨1, 0, 0⟩ : OutRow).lon ∧ g.lat = (⟨1, 0, 0⟩ : OutRow).lat := by
  refine ⟨?_, ?_, ?_⟩
  · norm_num [runNumbering, readPoints, projPoints, processLine, runLines,
      mkDf, selRows, sortRows, numberedRows, mergeRows, polyDistSq, segDistSq,
      ptDistSq, withinThreshold, projId, distOnX, InGeom.isPoint,
      List.insertionSort, List.orderedInsert, List.enum, List.enumFrom,
      List.filter, List.filterMap, List.find?, BEq.beq, Nat.beq]
  · norm_num [readPoints, InGeom.isPoint, List.enum, List.enumFrom,
      List.filterMap]
  · rintro ⟨g, ⟨_, _, _⟩, huniq⟩
    have h0 : (⟨0, 0, 0⟩ : IngPoint) = g :=
      huniq ⟨0, 0, 0⟩ ⟨List.mem_cons_self _ _, rfl, rfl⟩
    have h1 : (⟨1, 0, 0⟩ : IngPoint) = g :=
      huniq ⟨1, 0, 0⟩
        ⟨List.mem_cons_of_mem _ (List.mem_cons_self _ _), rfl, rfl⟩
    rw [← h0] at h1
    exact absurd (congrArg IngPoint.origIndex h1) (by norm_num)

/-- C9 as amended: every output entry carries the exact original
coordinates of the input point it was derived from, and the original index
itself is not part of the output; identity is therefore recoverable exactly
when coordinates identify points.  Whenever the ingested points have
pairwise distinct coordinates, each output entry matches exactly one
ingested point. -/
theorem identity_recoverable_of_distinct_coords {proj : ℚ × ℚ → Point2}
    {d : Polyline → Point2 → ℚ} {feats : List InGeom}
    {features : List (List (ℚ × ℚ))} {t : ℚ} {s : List ℕ}
    {out : List OutRow} {gdf : List IngPoint}
    (h : runNumbering proj d feats features t s = .ok out)
    (hrp : readPoints feats = .ok gdf)
    (hdist : ∀ g1 ∈ gdf, ∀ g2 ∈ gdf,
      g1.lon = g2.lon → g1.lat = g2.lat → g1 = g2) :
    ∀ e ∈ out, ∃! g : IngPoint, g ∈ gdf ∧ g.lon = e.lon ∧ g.lat = e.lat := by
  intro e he
  obtain ⟨g, hg, hlon, hlat⟩ := runNumbering_provenance h hrp e he
  refine ⟨g, ⟨hg, hlon.symm, hlat.symm⟩, ?_⟩
  rintro g2 ⟨hg2, hlon2, hlat2⟩
  exact hdist g2 hg2 g hg (by rw [hlon2, hlon]) (by rw [hlat2, hlat])

/-- Witness for C9 as amended: two points with distinct coordinates; each
output entry matches exactly one ingested point. -/
theorem identity_recoverable_of_distinct_coords_witness :
    ∃! g : IngPoint,
      g ∈ ([⟨0, 0, 0⟩, ⟨1, 1, 0⟩] : List IngPoint)
        ∧ g.lon = (⟨1, 0, 0⟩ : OutRow).lon
        ∧ g.lat = (⟨1, 0, 0⟩ : OutRow).lat :=
  identity_recoverable_of_distinct_coords
    (show runNumbering projId distOnX [.point 0 0, .point 1 0]
        [[(-1, 0), (2, 0)]] 1 [1] = .ok [⟨1, 0, 0⟩, ⟨2, 1, 0⟩] by
      norm_num [runNumbering, readPoints, projPoints, processLine, runLines,
        mkDf, selRows, sortRows, numberedRows, mergeRows, polyDistSq,
        segDistSq, ptDistSq, withinThreshold, projId, distOnX, InGeom.isPoint,
        List.insertionSort, List.orderedInsert, List.enum, List.enumFrom,
        List.filter, List.filterMap, List.find?, BEq.beq, Nat.beq])
    (by norm_num [readPoints, InGeom.isPoint, List.enum, List.enumFrom,
      List.filterMap])
    (by
      intro g1 hg1 g2 hg2 hlon hlat
      rcases List.mem_cons.mp hg1 with h1 | h1
      on_goal 2 => rcases List.mem_cons.mp h1 with h1 | h1
      all_goals rcases List.mem_cons.mp hg2 with h2 | h2
      on_goal 2 => rcases List.mem_cons.mp h2 with h2 | h2
      on_goal 5 => rcases List.mem_cons.mp h2 with h2 | h2
      all_goals first
        | (subst h1; subst h2; rfl)
        | (exfalso; subst h1; subst h2; norm_num at hlon)
        | (exfalso; exact absurd h1 (List.not_mem_nil _))
        | (exfalso; exact absurd h2 (List.not_mem_nil _)))
    ⟨1, 0, 0⟩ (List.mem_cons_self _ _)

/-- C10: the longitude and latitude of every entry of the Output Point Set
(and hence of every exported point feature) are exactly the original
geographic coordinates of an ingested input point, for every choice of the
planar projection: the metric projection feeds only the along-line/distance
computation, and no inverse-projection round trip touches the exported
coordinates. -/
theorem export_coords_are_original {proj : ℚ × ℚ → Point2}
    {d : Polyline → Point2 → ℚ} {feats : List InGeom}
    {features : List (List (ℚ × ℚ))} {t : ℚ} {s : List ℕ}
    {out : List OutRow} {gdf : List IngPoint}
    (h : runNumbering proj d feats features t s = .ok out)
    (hrp : readPoints feats = .ok gdf) :
    ∀ f ∈ exportGeoms out, ∃ g ∈ gdf, f = .point g.lon g.lat := by
  intro f hf
  obtain ⟨e, he, hef⟩ := List.mem_map.mp hf
  obtain ⟨g, hg, hlon, hlat⟩ := runNumbering_provenance h hrp e he
  exact ⟨g, hg, by rw [← hef, hlon, hlat]⟩

/-- Witness for C10 at a concrete run: the exported geometries are built
from the original geographic coordinates of the matched points. -/
theorem export_coords_are_original_witness :
    ∃ g ∈ ([⟨0, 0, 0⟩, ⟨1, 1, 0⟩] : List IngPoint),
      (InGeom.point 0 0) = .point g.lon g.lat :=
  export_coords_are_original
    (show runNumbering projId distOnX [.point 0 0, .point 1 0]
        [[(-1, 0), (2, 0)]] 1 [1] = .ok [⟨1, 0, 0⟩, ⟨2, 1, 0⟩] by
      norm_num [runNumbering, readPoints, projPoints, processLine, runLines,
        mkDf, selRows, sortRows, numberedRows, mergeRows, polyDistSq,
        segDistSq, ptDistSq, withinThreshold, projId, distOnX, InGeom.isPoint,
        List.insertionSort, List.orderedInsert, List.enum, List.enumFrom,
        List.filter, List.filterMap, List.find?, BEq.beq, Nat.beq])
    (by norm_num [readPoints, InGeom.isPoint, List.enum, List.enumFrom,
      List.filterMap])
    (InGeom.point 0 0)
    (show InGeom.point 0 0
        ∈ exportGeoms ([⟨1, 0, 0⟩, ⟨2, 1, 0⟩] : List OutRow) from
      List.mem_cons_self _ _)
